import Mathlib

/-!
# Verification of the MusicVideoButton pairing-resolution engine

Shallow embedding of `src/plugins/MusicVideoButton/src/index.ts`.

JavaScript strings are modelled as `List Char`.  `String.prototype.toLowerCase`
is modelled by core `Char.toLower` applied characterwise, which agrees with
JavaScript exactly on ASCII.  Every concrete string in this file — the
program's keyword tables, the test titles, and the scenario keys (built from
ASCII digits and lowercase letters, which real JS `toLowerCase` leaves
unchanged) — lies in that range, so the abstraction is exact on every input
exercised here.  The JS whitespace class `\s` is modelled by its ASCII
fragment `isWs`.

Asynchronous behaviour: the host runs single-threaded cooperative JS.  A call
to `findSongVideoPair` executes synchronously up to and including the
registration of the in-flight promise (the synchronous prefix of
`performSearch` touches no cache), so it is modelled as one atomic step
returning a `ResolveResult`.  The later completion of the search promise
(network response arrives, `performSearch`'s continuation runs its cache
writes, and the `finally` handler removes the in-flight registry entry) is
modelled as the atomic step `settleSearch`, parameterised by the network
response and by the existence-check oracles that stand for
`MediaItem.fromId` (an oracle answering `false` models the `catch` branch).
-/

set_option maxRecDepth 4000

/-- ASCII fragment of the JS regex class `\s`. -/
def isWs (c : Char) : Bool :=
  c = ' ' || c = '\t' || c = '\n' || c = '\r' || c = '\x0b' || c = '\x0c'

/-- One pass of `String.prototype.replace(/\s+/g, " ")`: each maximal run of
whitespace becomes a single space.  The boolean records whether the previous
character belonged to a whitespace run. -/
def collapseWsAux : List Char → Bool → List Char
  | [], _ => []
  | c :: rest, prevWs =>
    if isWs c then
      if prevWs then collapseWsAux rest true
      else ' ' :: collapseWsAux rest true
    else c :: collapseWsAux rest false

/-- `String.prototype.replace(/\s+/g, " ")`. -/
def collapseWs (l : List Char) : List Char := collapseWsAux l false

/-- `String.prototype.trim()`: strip leading and trailing whitespace. -/
def trimWs (l : List Char) : List Char :=
  ((l.dropWhile isWs).reverse.dropWhile isWs).reverse

/-- Source `normalizeTitle` (line 230):
`s.toLowerCase().replace(/\s+/g, " ").trim()`. -/
def normalizeTitle (s : List Char) : List Char :=
  trimWs (collapseWs (s.map Char.toLower))

/-- Index of the first occurrence of `pat` in `l`
(`String.prototype.indexOf`), `none` when absent. -/
def firstInfixIdx (pat : List Char) : List Char → Option Nat
  | [] => if pat.isEmpty then some 0 else none
  | c :: rest =>
    if pat.isPrefixOf (c :: rest) then some 0
    else (firstInfixIdx pat rest).map (· + 1)

/-- `String.prototype.includes`. -/
def includesL (pat l : List Char) : Bool := (firstInfixIdx pat l).isSome

/-- The JS regex class `[-–—:|•~*.,'"\s]` used to strip separator punctuation. -/
def isSep (c : Char) : Bool :=
  (['-', '–', '—', ':', '|', '•', '~', '*', '.', ',', '\'', '"'].contains c) || isWs c

/-- The `allowed` array inside `hasStrictBoundary` (lines 271-281). -/
def allowedQualifiers : List (List Char) :=
  ["official music video".data, "official video".data, "music video".data,
   "official mv".data, "mv".data, "video".data, "hd".data, "4k".data, "uhd".data]

/-- Source `hasStrictBoundary` (lines 264-297).  The regex
`^[(\[]\s*([^\]\)]*?)\s*[)\]](.*)$` captures, after a leading `(` or `[`, the
characters up to the first `)` or `]` (surrounding whitespace is stripped by
the `\s*` anchors; here it is absorbed by the `normalizeTitle` that the source
applies to the capture), and the remainder after that first closing bracket.
If no closing bracket exists the regex fails to match. -/
def hasStrictBoundary (title normalizedOriginal : List Char) : Bool :=
  match firstInfixIdx normalizedOriginal title with
  | none => false
  | some idx =>
    let after0 := trimWs (title.drop (idx + normalizedOriginal.length))
    if after0.isEmpty then true
    else
      let after := trimWs (after0.dropWhile isSep)
      if after.isEmpty then true
      else
        match after with
        | [] => true
        | c :: rest =>
          if c = '(' || c = '[' then
            let inner := rest.takeWhile (fun d => !(d = ')' || d = ']'))
            if inner.length = rest.length then false
            else
              let content := normalizeTitle inner
              if allowedQualifiers.contains content then
                (trimWs ((rest.drop (inner.length + 1)).dropWhile isSep)).isEmpty
              else false
          else
            match allowedQualifiers.find? (fun suf => suf.isPrefixOf after) with
            | some suf =>
              (trimWs ((after.drop suf.length).dropWhile isSep)).isEmpty
            | none => decide (after.length ≤ 8)

/-- Companion of `removeBrackets`: `some buf` means we are scanning inside a
potential match of `[[(].*?[\])]` whose consumed characters (opener included)
are held in `buf`, reversed.  If a first closing bracket arrives the whole
buffer is discarded (the global replace deletes the match); if the input ends
first, the regex never matched there and the buffer is restored. -/
def removeBracketsAux : List Char → Option (List Char) → List Char
  | [], none => []
  | [], some buf => buf.reverse
  | c :: rest, none =>
    if c = '[' || c = '(' then removeBracketsAux rest (some [c])
    else c :: removeBracketsAux rest none
  | c :: rest, some buf =>
    if c = ')' || c = ']' then removeBracketsAux rest none
    else removeBracketsAux rest (some (c :: buf))

/-- `String.prototype.replace(/[[(].*?[\])]/g, "")`: delete every leftmost-first
lazy bracket group.  (The `.` of the source regex does not match newlines; the
program only ever applies this to `normalizeTitle` output, which contains no
newline, so the distinction is unobservable.) -/
def removeBrackets (l : List Char) : List Char := removeBracketsAux l none

/-- The `suffixes` array of `extractSongName` (lines 300-308), in source order. -/
def songSuffixes : List (List Char) :=
  ["official music video".data, "music video".data, "official video".data,
   "official mv".data, "mv".data, "official".data, "video".data]

/-- Source `extractSongName` (lines 299-321). -/
def extractSongName (title : List Char) : List Char :=
  let cleaned := songSuffixes.foldl
    (fun cl suf =>
      if suf.isSuffixOf cl then trimWs (cl.take (cl.length - suf.length)) else cl)
    title
  trimWs (removeBrackets cleaned)

/-- The `rejectKeywords` array of `scoreTitleMatch` (line 240). -/
def rejectKeywords : List (List Char) :=
  ["behind the scenes".data, "bts".data, "interview".data, "making of".data,
   "teaser".data, "trailer".data, "snippet".data, "shorts".data,
   "reaction".data, "fan".data, "cover".data, "dance".data, "lyrics".data]

/-- The `officialKeywords` array of `scoreTitleMatch` (line 247). -/
def officialKeywords : List (List Char) :=
  ["official music video".data, "official video".data, "music video".data,
   "official mv".data, "mv".data]

/-- Source `scoreTitleMatch` (lines 234-262). -/
def scoreTitleMatch (normalizedOriginal candidateTitle : List Char) : Nat :=
  let t := normalizeTitle candidateTitle
  if !(includesL normalizedOriginal t) then 0
  else if !(hasStrictBoundary t normalizedOriginal) then 0
  else if rejectKeywords.any (fun kw => includesL kw t) then 0
  else if t == normalizedOriginal then 1000
  else if officialKeywords.any (fun kw => includesL kw t) then 900
  else if extractSongName t == normalizedOriginal then 800
  else if (normalizedOriginal ++ [' ']).isPrefixOf t then 700
  else if normalizedOriginal.isPrefixOf t then 600
  else if includesL (' ' :: (normalizedOriginal ++ [' '])) t then 500
  else if includesL normalizedOriginal t then 400
  else 0

/-- A parsed search-result item: `{ id: item.id, title: String(item.title ?? "") }`. -/
structure Candidate where
  id : Nat
  title : List Char
deriving DecidableEq

/-- Insert one scored candidate behind every already-placed candidate of
greater-or-equal score.  Folding this over the list in order is the unique
stable descending sort, which is what `Array.prototype.sort` (stable per
ECMAScript) produces with comparator `(a, b) => b.score - a.score`. -/
def insertByScore (x : Nat × Nat) : List (Nat × Nat) → List (Nat × Nat)
  | [] => [x]
  | y :: ys => if x.2 ≤ y.2 then y :: insertByScore x ys else x :: y :: ys

/-- Stable sort by score, descending (`.sort((a, b) => b.score - a.score)`). -/
def sortByScoreDesc (l : List (Nat × Nat)) : List (Nat × Nat) :=
  l.foldl (fun acc x => insertByScore x acc) []

/-- The `for ... of candidates.slice(0, 3)` loop of `findBestMatchingId`:
walk the (already sorted, already truncated) scored candidates; for each one
with positive score consult the existence oracle and stop at the first success.
Returns the winner (if any) together with the list of ids whose existence was
actually checked. -/
def scoredWalk (ex : Nat → Bool) : List (Nat × Nat) → Option Nat × List Nat
  | [] => (none, [])
  | (i, sc) :: rest =>
    if 0 < sc then
      if ex i then (some i, [i])
      else
        let r := scoredWalk ex rest
        (r.1, i :: r.2)
    else scoredWalk ex rest

/-- Source `findBestMatchingId` (lines 31-59).  `ex` is the existence oracle
standing for `await MediaItem.fromId(id, type)` (`false` = the `catch` branch).
`originalTitle ? normalizeTitle(originalTitle) : undefined` followed by
`if (normalizedOriginal)` means the scored path runs only when the original
title and its normalization are both non-empty (JS truthiness of strings). -/
def findBestMatchingId (items : List Candidate) (ex : Nat → Bool)
    (originalTitle : Option (List Char)) : Option Nat :=
  if items.isEmpty then none
  else
    let normalizedOriginal : Option (List Char) :=
      match originalTitle with
      | none => none
      | some t =>
        if t.isEmpty then none
        else
          let n := normalizeTitle t
          if n.isEmpty then none else some n
    match normalizedOriginal with
    | some n =>
      let candidates :=
        sortByScoreDesc (items.map (fun it => (it.id, scoreTitleMatch n it.title)))
      (scoredWalk ex (candidates.take 3)).1
    | none => (items.find? (fun it => ex it.id)).map (fun it => it.id)

/-- The ids whose existence the scored path of `findBestMatchingId` checks. -/
def checkedExistence (items : List Candidate) (ex : Nat → Bool)
    (n : List Char) : List Nat :=
  (scoredWalk ex
    ((sortByScoreDesc (items.map (fun it => (it.id, scoreTitleMatch n it.title)))).take 3)).2

/-- A confirmed track/video association (`{ trackId, videoId }`). -/
structure Pairing where
  trackId : Nat
  videoId : Nat
deriving DecidableEq

/-- The module-level mutable state of the plugin (lines 10-13):
`songToVideoMappings`, `failedSearches`, `ongoingSearches`, `seekPositions`.
JS `Map`/`Set` are modelled as insertion-ordered association lists / lists,
which is exactly the iteration order `Array.from` observes.  `nextSearchId`
numbers the search promises in creation order, so it also counts how many
underlying searches have been issued; `seekPositions` values (seconds) are
abstracted to `Nat`, since nothing here depends on them. -/
structure ResolverState where
  songToVideoMappings : List (Nat × Pairing)
  failedSearches : List (List Char)
  ongoingSearches : List (List Char × Nat)
  seekPositions : List (Nat × Nat)
  nextSearchId : Nat
deriving DecidableEq

/-- The state right after plugin load: every cache empty. -/
def initialState : ResolverState := ⟨[], [], [], [], 0⟩

/-- JS `Map.prototype.set`: replace in place if the key is present (keeping its
position in insertion order), otherwise append at the end. -/
def mapSet {K V : Type} [BEq K] : List (K × V) → K → V → List (K × V)
  | [], k, v => [(k, v)]
  | e :: rest, k, v => if e.1 == k then (k, v) :: rest else e :: mapSet rest k v

/-- JS `Set.prototype.add`: no-op if present (keeping position), else append. -/
def setAdd {K : Type} [BEq K] : List K → K → List K
  | [], k => [k]
  | e :: rest, k => if e == k then e :: rest else e :: setAdd rest k

/-- JS `Map.prototype.delete`: remove the entry with the given key (the first
one; keys are unique in a `Map`). -/
def eraseKey {K V : Type} [BEq K] : List (K × V) → K → List (K × V)
  | [], _ => []
  | e :: rest, k => if e.1 == k then rest else e :: eraseKey rest k

/-- Source `pruneCache` (lines 15-21), with its default arguments
`maxSize = 1000`, `keepSize = 500` inlined (no call site overrides them):
when the map holds more than 1000 entries keep only the last 500 in insertion
order (`Array.from(cache.entries()).slice(-keepSize)` re-inserted in order). -/
def pruneCache (cache : List (Nat × Pairing)) : List (Nat × Pairing) :=
  if cache.length > 1000 then cache.drop (cache.length - 500) else cache

/-- Source `pruneSet` (lines 23-29), defaults `maxSize = 1000`,
`keepSize = 500` inlined. -/
def pruneSet (set : List (List Char)) : List (List Char) :=
  if set.length > 1000 then set.drop (set.length - 500) else set

/-- Source `clearCaches` (lines 61-65): clears the three search caches and
nothing else. -/
def clearCaches (s : ResolverState) : ResolverState :=
  { s with songToVideoMappings := [], failedSearches := [], ongoingSearches := [] }

/-- The composite search key of `findSongVideoPair` (line 86):
`` `${artist.toLowerCase()} - ${title.toLowerCase()}` ``. -/
def searchKey (title artist : List Char) : List Char :=
  artist.map Char.toLower ++ " - ".data ++ title.map Char.toLower

/-- What a call to `findSongVideoPair` does synchronously, from the caller's
point of view: return `undefined` (negative cache hit), join an existing
in-flight promise, or start a new one.  Two callers holding the same promise
id necessarily receive the same settled value. -/
inductive ResolveResult where
  | negCached
  | joined (pid : Nat)
  | started (pid : Nat)
deriving DecidableEq

/-- Source `findSongVideoPair` (lines 85-96), synchronous part.  The body runs
atomically (it contains no `await`): check the negative cache, then join an
existing in-flight entry, else register a fresh promise under the key and
issue the search. -/
def findSongVideoPair (title artist : List Char) (s : ResolverState) :
    ResolveResult × ResolverState :=
  let key := searchKey title artist
  if s.failedSearches.contains key then (.negCached, s)
  else
    match s.ongoingSearches.lookup key with
    | some pid => (.joined pid, s)
    | none =>
      (.started s.nextSearchId,
        { s with
            ongoingSearches := mapSet s.ongoingSearches key s.nextSearchId,
            nextSearchId := s.nextSearchId + 1 })

/-- The network outcome a pending search eventually observes: a non-ok HTTP
response on either fetch, parsed candidate payloads, or a thrown exception. -/
inductive SearchResponse where
  | httpError
  | payload (trackItems videoItems : List Candidate)
  | exn

/-- JS truthiness of `trackId` / `videoId` in `if (trackId && videoId)`
(line 121): `undefined` and `0` are falsy. -/
def truthy : Option Nat → Bool
  | some n => n != 0
  | none => false

/-- Source `performSearch` (lines 98-137), as a function of the network
response: the cache writes its continuation performs once the response is in.
`key` is the `searchKey` argument; `exTrack`/`exVideo` are the existence
oracles used by the two `findBestMatchingId` calls.  Note that the non-ok
HTTP branch (lines 110-113) adds to `failedSearches` WITHOUT calling
`pruneSet`, unlike the other two failure branches (lines 129-130, 133-134). -/
def performSearch (title key : List Char) (resp : SearchResponse)
    (exTrack exVideo : Nat → Bool) (s : ResolverState) :
    Option Pairing × ResolverState :=
  match resp with
  | .httpError =>
    (none, { s with failedSearches := setAdd s.failedSearches key })
  | .payload trackItems videoItems =>
    let trackId := findBestMatchingId trackItems exTrack (some title)
    let videoId := findBestMatchingId videoItems exVideo (some title)
    if truthy trackId && truthy videoId then
      let m : Pairing := ⟨trackId.getD 0, videoId.getD 0⟩
      (some m,
        { s with songToVideoMappings :=
            pruneCache (mapSet (mapSet s.songToVideoMappings m.trackId m) m.videoId m) })
    else
      (none, { s with failedSearches := pruneSet (setAdd s.failedSearches key) })
  | .exn =>
    (none, { s with failedSearches := pruneSet (setAdd s.failedSearches key) })

/-- The settling of an in-flight search: `performSearch`'s writes followed by
the `.finally(() => ongoingSearches.delete(searchKey))` handler installed by
`findSongVideoPair` (line 95).  Runs exactly once per started promise,
whatever the outcome. -/
def settleSearch (title key : List Char) (resp : SearchResponse)
    (exTrack exVideo : Nat → Bool) (s : ResolverState) :
    Option Pairing × ResolverState :=
  let r := performSearch title key resp exTrack exVideo s
  (r.1, { r.2 with ongoingSearches := eraseKey r.2.ongoingSearches key })

/-- Result of `resolveMapping` from the caller's point of view. -/
inductive MappingOutcome where
  | pairCached (m : Pairing)
  | noResult
  | searchJoined (pid : Nat)
  | searchStarted (pid : Nat)
deriving DecidableEq

/-- Source `resolveMapping` (lines 139-152).  `fetchRes` stands for the
evaluation of `media.tidalItem?.title ?? (await media.title())` and
`media.tidalItem?.artist?.name ?? (await media.artist())?.name ?? ""`:
`.error` is the `catch` branch, otherwise the fetched title
(`none` = `undefined`) and artist.  `if (!title)` is falsy for both
`undefined` and the empty string. -/
def resolveMapping (mediaId : Nat)
    (fetchRes : Except Unit (Option (List Char) × List Char))
    (s : ResolverState) : MappingOutcome × ResolverState :=
  match s.songToVideoMappings.lookup mediaId with
  | some m => (.pairCached m, s)
  | none =>
    match fetchRes with
    | .error _ => (.noResult, s)
    | .ok (title?, artist) =>
      match title? with
      | none => (.noResult, s)
      | some t =>
        if t.isEmpty then (.noResult, s)
        else
          match findSongVideoPair t artist s with
          | (.negCached, s1) => (.noResult, s1)
          | (.joined pid, s1) => (.searchJoined pid, s1)
          | (.started pid, s1) => (.searchStarted pid, s1)

/-- The `seekPositions.set(targetId, startAt)` step of `switchToMediaItem`
(lines 158-160): records a pending seek only when a start position was
supplied. -/
def setSeekIntent (targetId : Nat) (startAt : Option Nat) (s : ResolverState) :
    ResolverState :=
  match startAt with
  | some v => { s with seekPositions := mapSet s.seekPositions targetId v }
  | none => s

/-- The seek-consumption step of the `onMediaTransition` handler
(lines 193-197): look up a pending seek for the media that just became
active; if present, fire it and delete the entry. -/
def consumeSeek (mediaId : Nat) (s : ResolverState) :
    Option Nat × ResolverState :=
  match s.seekPositions.lookup mediaId with
  | some v => (some v, { s with seekPositions := eraseKey s.seekPositions mediaId })
  | none => (none, s)

/-! ## Concrete scenarios

The scenario states below are built only from the operations of the model
(`findSongVideoPair` / `settleSearch`), starting from `initialState`.  In
every scenario each `findSongVideoPair` call is proven (in the lemmas that
characterise the runs) to return `.started`, so the `settleSearch` that
follows it is exactly the settling of that freshly started search. -/

/-- The `i`-th pairing of the bounded-growth scenario: all ids positive and
pairwise distinct across the whole run. -/
def demoPair (i : Nat) : Pairing := ⟨2 * i + 1, 2 * i + 2⟩

/-- A search payload that makes `performSearch` succeed with `demoPair i`:
one track item and one video item; the selector takes the unscored path
(empty reference title) and the existence oracle accepts. -/
def demoItems (i : Nat) : SearchResponse :=
  .payload [⟨2 * i + 1, []⟩] [⟨2 * i + 2, []⟩]

/-- One successful search settling, inserting `demoPair i` into the pairing
cache (the success branch of `performSearch`, lines 121-127). -/
def insertStep (s : ResolverState) (i : Nat) : ResolverState :=
  (settleSearch [] [] (demoItems i) (fun _ => true) (fun _ => true) s).2

/-- State after the first `n` pairings of the bounded-growth scenario have
been inserted. -/
def pairingsState : Nat → ResolverState
  | 0 => initialState
  | n + 1 => insertStep (pairingsState n) n

/-- The two cache entries a stored pairing occupies (track key and video
key, in insertion order). -/
def pairEntries (ps : List Pairing) : List (Nat × Pairing) :=
  ps.flatMap (fun p => [(p.trackId, p), (p.videoId, p)])

/-- Number of pairings held by the cache after `n` insertions of the
bounded-growth scenario: grows by one per insertion, reset to 250 pairings
(= 500 entries) by each prune. -/
def cachePairCount : Nat → Nat
  | 0 => 0
  | n + 1 => if 2 * (cachePairCount n + 1) > 1000 then 250 else cachePairCount n + 1

/-- Encoding of a base-36 digit as an ASCII character: `0`-`9` for values
below ten, then `a`-`z`.  Every such character is a fixed point of real
JS `toLowerCase` (ASCII digits and lowercase letters have no case mapping),
and equally of the model's `Char.toLower`, so keys built from these
characters behave identically in the model and in the program. -/
def keyChar (d : Nat) : Char :=
  if d < 10 then Char.ofNat (48 + d) else Char.ofNat (87 + d)

/-- Artist of the `i`-th "other" song of the negative-cache scenarios: the
two base-36 digits of `i` (`i < 1296`), e.g. `"07"`, `"2b"`, `"zz"`. -/
def otherArtist (i : Nat) : List Char := [keyChar (i / 36), keyChar (i % 36)]

/-- Search key of the `i`-th "other" song (title empty): `"d₁d₀ - "`.  For
`i < 1296` these keys are pairwise distinct, in the model and under real JS
`toLowerCase` alike. -/
def otherKey (i : Nat) : List Char := searchKey [] (otherArtist i)

/-- Artist of the distinguished key `K` of the negative-cache persistence
claim: three lowercase letters, so its key differs in length from every
`otherKey`. -/
def negArtist : List Char := "zzz".data

/-- The distinguished negative-cache key `K = "zzz - "`. -/
def negKey : List Char := searchKey [] negArtist

/-- Resolve `(title, artist)` (starting a search) and settle that search with
response `resp`; the existence oracles reject, which is irrelevant on the
failure paths these scenarios take. -/
def resolveAndFail (title artist : List Char) (resp : SearchResponse)
    (s : ResolverState) : ResolverState :=
  (settleSearch title (searchKey title artist) resp (fun _ => false) (fun _ => false)
    (findSongVideoPair title artist s).2).2

/-- Negative-cache eviction scenario: first the resolution of `K` fails (no
plausible candidates), then `n` other songs fail the same way. -/
def evictState : Nat → ResolverState
  | 0 => resolveAndFail [] negArtist (.payload [] []) initialState
  | n + 1 => resolveAndFail [] (otherArtist n) (.payload [] []) (evictState n)

/-- Transport-failure scenario: `n` searches with pairwise distinct keys each
settle with a non-ok HTTP response. -/
def httpFailState : Nat → ResolverState
  | 0 => initialState
  | n + 1 => resolveAndFail [] (otherArtist n) .httpError (httpFailState n)

/-! ## General-purpose lemmas -/

theorem charOfNat_toNat (n : Nat) (h : n.isValidChar) : (Char.ofNat n).toNat = n := by
  simp [Char.ofNat, Char.toNat, Char.ofNatAux, h, UInt32.toNat, BitVec.toNat_ofNatLt]

theorem toLower_eq (c : Char) :
    Char.toLower c = if 65 ≤ c.toNat ∧ c.toNat ≤ 90 then Char.ofNat (c.toNat + 32) else c := rfl

theorem toLower_of_not_upper (c : Char) (h : ¬(65 ≤ c.toNat ∧ c.toNat ≤ 90)) :
    Char.toLower c = c := by
  rw [toLower_eq c, if_neg h]

theorem toLower_toLower (c : Char) : Char.toLower (Char.toLower c) = Char.toLower c := by
  by_cases h : 65 ≤ c.toNat ∧ c.toNat ≤ 90
  · have hv : (c.toNat + 32).isValidChar := Or.inl (by omega)
    rw [toLower_eq c, if_pos h, toLower_eq, if_neg]
    rw [charOfNat_toNat _ hv]
    omega
  · rw [toLower_eq c, if_neg h, toLower_eq c, if_neg h]

theorem lookup_cons {K V : Type} [BEq K] (a k : K) (b : V) (es : List (K × V)) :
    List.lookup a ((k, b) :: es) = if a == k then some b else List.lookup a es := by
  cases h : a == k <;> simp [List.lookup, h]

theorem lookup_mapSet {K V : Type} [BEq K] [LawfulBEq K] (m : List (K × V)) (k : K) (v : V) :
    (mapSet m k v).lookup k = some v := by
  induction m with
  | nil => simp [mapSet, lookup_cons]
  | cons e rest ih =>
    by_cases h : e.1 == k
    · simp [mapSet, h, lookup_cons]
    · simp only [mapSet, h, if_false, Bool.false_eq_true]
      rw [show (e : K × V) = (e.1, e.2) from rfl, lookup_cons, if_neg, ih]
      simpa using fun hk => by simp [hk] at h

theorem mapSet_of_fresh {K V : Type} [BEq K] (m : List (K × V)) (k : K) (v : V)
    (h : ∀ e ∈ m, (e.1 == k) = false) : mapSet m k v = m ++ [(k, v)] := by
  induction m with
  | nil => simp [mapSet]
  | cons e rest ih =>
    have he : (e.1 == k) = false := h e (by simp)
    simp only [mapSet, he, Bool.false_eq_true, if_false, List.cons_append,
      List.cons.injEq, true_and]
    exact ih fun e' he' => h e' (by simp [he'])

theorem setAdd_of_fresh {K : Type} [BEq K] (l : List K) (k : K)
    (h : ∀ e ∈ l, (e == k) = false) : setAdd l k = l ++ [k] := by
  induction l with
  | nil => simp [setAdd]
  | cons e rest ih =>
    have he : (e == k) = false := h e (by simp)
    simp only [setAdd, he, Bool.false_eq_true, if_false, List.cons_append,
      List.cons.injEq, true_and]
    exact ih fun e' he' => h e' (by simp [he'])

theorem eraseKey_mapSet_of_fresh {K V : Type} [BEq K] [LawfulBEq K]
    (m : List (K × V)) (k : K) (v : V)
    (h : ∀ e ∈ m, (e.1 == k) = false) : eraseKey (mapSet m k v) k = m := by
  induction m with
  | nil => simp [mapSet, eraseKey]
  | cons e rest ih =>
    have he : (e.1 == k) = false := h e (by simp)
    simp only [mapSet, he, Bool.false_eq_true, if_false, eraseKey]
    exact congrArg (e :: ·) (ih fun e' he' => h e' (by simp [he']))

theorem lookup_eq_none_of_fresh {K V : Type} [BEq K] (m : List (K × V)) (k : K)
    (h : ∀ e ∈ m, (k == e.1) = false) : m.lookup k = none := by
  induction m with
  | nil => simp
  | cons e rest ih =>
    rw [show (e : K × V) = (e.1, e.2) from rfl, lookup_cons, if_neg (by simp [h e (by simp)])]
    exact ih fun e' he' => h e' (by simp [he'])

theorem fresh_of_lookup_eq_none {K V : Type} [BEq K] [LawfulBEq K]
    (m : List (K × V)) (k : K) (h : m.lookup k = none) :
    ∀ e ∈ m, (e.1 == k) = false := by
  induction m with
  | nil => simp
  | cons e rest ih =>
    rw [show (e : K × V) = (e.1, e.2) from rfl, lookup_cons] at h
    intro e' he'
    rcases List.mem_cons.mp he' with rfl | hmem
    · by_cases hk : (e'.1 == k) = true
      · have heq : e'.1 = k := eq_of_beq hk
        rw [if_pos (by simp [heq])] at h; cases h
      · simpa using hk
    · have : List.lookup k rest = none := by
        by_cases hk : (k == e.1) = true
        · rw [if_pos hk] at h; cases h
        · rwa [if_neg (by simpa using hk)] at h
      exact ih this e' hmem

theorem mem_drop_append_last {α : Type} (xs : List α) (a : α) (n : Nat)
    (h : n ≤ xs.length) : a ∈ (xs ++ [a]).drop n := by
  induction xs generalizing n with
  | nil =>
    have : n = 0 := by simpa using h
    simp [this]
  | cons x xs ih =>
    cases n with
    | zero => simp
    | succ n => simpa using ih n (by simpa using h)

theorem range'_drop (m s n : Nat) : (List.range' s n).drop m = List.range' (s + m) (n - m) := by
  induction m generalizing s n with
  | zero => simp
  | succ m ih =>
    cases n with
    | zero => simp
    | succ n =>
      rw [List.range'_succ, List.drop_succ_cons, ih (s + 1) n]
      congr 1 <;> omega

/-! ## Normalization: structure of `collapseWs` / `trimWs` output -/

theorem mem_collapseWsAux (l : List Char) (b : Bool) (c : Char)
    (hc : c ∈ collapseWsAux l b) : c = ' ' ∨ (c ∈ l ∧ isWs c = false) := by
  induction l generalizing b with
  | nil => simp [collapseWsAux] at hc
  | cons x rest ih =>
    by_cases hw : isWs x = true
    · by_cases hb : b = true
      · subst hb
        simp only [collapseWsAux, hw, if_pos] at hc
        rcases ih true hc with h | ⟨hm, hws⟩
        · exact Or.inl h
        · exact Or.inr ⟨by simp [hm], hws⟩
      · have hb' : b = false := by cases b <;> simp_all
        subst hb'
        simp only [collapseWsAux, hw, if_pos, Bool.false_eq_true, if_false,
          List.mem_cons] at hc
        rcases hc with rfl | hc
        · exact Or.inl rfl
        · rcases ih true hc with h | ⟨hm, hws⟩
          · exact Or.inl h
          · exact Or.inr ⟨by simp [hm], hws⟩
    · simp only [collapseWsAux, hw, Bool.false_eq_true, if_false, List.mem_cons] at hc
      rcases hc with rfl | hc
      · exact Or.inr ⟨by simp, by simpa using hw⟩
      · rcases ih false hc with h | ⟨hm, hws⟩
        · exact Or.inl h
        · exact Or.inr ⟨by simp [hm], hws⟩

theorem mem_trimWs (l : List Char) (c : Char) (hc : c ∈ trimWs l) : c ∈ l := by
  unfold trimWs at hc
  rw [List.mem_reverse] at hc
  have h1 := (List.dropWhile_suffix isWs).subset hc
  rw [List.mem_reverse] at h1
  exact (List.dropWhile_suffix isWs).subset h1

theorem chain_collapseWsAux (l : List Char) :
    List.Chain' (fun a b : Char => ¬(a = ' ' ∧ b = ' ')) (collapseWsAux l false) ∧
    List.Chain' (fun a b : Char => ¬(a = ' ' ∧ b = ' ')) (collapseWsAux l true) ∧
    (∀ c, (collapseWsAux l true).head? = some c → isWs c = false) := by
  induction l with
  | nil => simp [collapseWsAux]
  | cons x rest ih =>
    by_cases hw : isWs x = true
    · refine ⟨?_, ?_, ?_⟩
      · simp only [collapseWsAux, hw, if_true, Bool.false_eq_true, if_false]
        rw [List.chain'_cons']
        refine ⟨?_, ih.2.1⟩
        intro b hb
        have hbw : isWs b = false := ih.2.2 b hb
        intro ⟨_, hb'⟩
        subst hb'
        simp [isWs] at hbw
      · simpa only [collapseWsAux, hw, if_true] using ih.2.1
      · simpa only [collapseWsAux, hw, if_true] using ih.2.2
    · have hx : x ≠ ' ' := fun h => by simp [h, isWs] at hw
      refine ⟨?_, ?_, ?_⟩
      · simp only [collapseWsAux, hw, Bool.false_eq_true, if_false]
        rw [List.chain'_cons']
        exact ⟨fun b _ => fun ⟨h', _⟩ => hx h', ih.1⟩
      · simp only [collapseWsAux, hw, Bool.false_eq_true, if_false]
        rw [List.chain'_cons']
        exact ⟨fun b _ => fun ⟨h', _⟩ => hx h', ih.1⟩
      · simp only [collapseWsAux, hw, Bool.false_eq_true, if_false, List.head?_cons]
        intro c hc
        cases hc
        simpa using hw

theorem collapse_eq_self (l : List Char)
    (hws : ∀ c ∈ l, isWs c = true → c = ' ')
    (hch : List.Chain' (fun a b : Char => ¬(a = ' ' ∧ b = ' ')) l) :
    collapseWsAux l false = l ∧
    ((∀ c, l.head? = some c → isWs c = false) → collapseWsAux l true = l) := by
  induction l with
  | nil => simp [collapseWsAux]
  | cons x rest ih =>
    rw [List.chain'_cons'] at hch
    have hwsr : ∀ c ∈ rest, isWs c = true → c = ' ' :=
      fun c hc => hws c (by simp [hc])
    have ihr := ih hwsr hch.2
    by_cases hw : isWs x = true
    · have hx : x = ' ' := hws x (by simp) hw
      subst hx
      have hrhead : ∀ c, rest.head? = some c → isWs c = false := by
        intro c hc
        have hne : ¬(' ' = ' ' ∧ c = ' ') := hch.1 c hc
        have : c ≠ ' ' := fun h => hne ⟨rfl, h⟩
        by_cases hcw : isWs c = true
        · exact absurd (hwsr c (List.mem_of_mem_head? hc) hcw) this
        · simpa using hcw
      constructor
      · simp only [collapseWsAux, hw, if_true, Bool.false_eq_true, if_false]
        rw [ihr.2 hrhead]
      · intro hhead
        have := hhead ' ' (by simp)
        simp [isWs] at this
    · constructor
      · simp only [collapseWsAux, hw, Bool.false_eq_true, if_false]
        rw [ihr.1]
      · intro _
        simp only [collapseWsAux, hw, Bool.false_eq_true, if_false]
        rw [ihr.1]

theorem dropWhile_eq_self_of_head (p : Char → Bool) (l : List Char)
    (h : ∀ c, l.head? = some c → p c = false) : l.dropWhile p = l := by
  cases l with
  | nil => rfl
  | cons x rest =>
    have := h x (by simp)
    simp [List.dropWhile, this]

theorem head_dropWhile_not (p : Char → Bool) (l : List Char) (c : Char)
    (hc : (l.dropWhile p).head? = some c) : p c = false := by
  induction l with
  | nil => simp at hc
  | cons x rest ih =>
    by_cases hp : p x = true
    · rw [List.dropWhile_cons_of_pos hp] at hc
      exact ih hc
    · rw [List.dropWhile_cons_of_neg (by simpa using hp)] at hc
      cases hc
      simpa using hp

theorem trim_eq_self (l : List Char)
    (h1 : ∀ c, l.head? = some c → isWs c = false)
    (h2 : ∀ c, l.getLast? = some c → isWs c = false) : trimWs l = l := by
  unfold trimWs
  rw [dropWhile_eq_self_of_head isWs l h1]
  rw [dropWhile_eq_self_of_head isWs l.reverse
    (fun c hc => h2 c (by rwa [List.head?_reverse] at hc))]
  exact List.reverse_reverse l

theorem trim_head_not_ws (l : List Char) (c : Char)
    (hc : (trimWs l).head? = some c) : isWs c = false := by
  unfold trimWs at hc
  rw [List.head?_reverse] at hc
  obtain ⟨p, hp⟩ := List.dropWhile_suffix isWs
    (l := (l.dropWhile isWs).reverse)
  have : ((l.dropWhile isWs).reverse).getLast? = some c := by
    rw [← hp, List.getLast?_append, hc]
    rfl
  rw [List.getLast?_reverse] at this
  exact head_dropWhile_not isWs l c this

theorem trim_last_not_ws (l : List Char) (c : Char)
    (hc : (trimWs l).getLast? = some c) : isWs c = false := by
  unfold trimWs at hc
  rw [List.getLast?_reverse] at hc
  exact head_dropWhile_not isWs _ c hc

theorem norm_chars (s : List Char) (c : Char) (hc : c ∈ normalizeTitle s) :
    Char.toLower c = c := by
  unfold normalizeTitle at hc
  have h1 := mem_trimWs _ c hc
  rcases mem_collapseWsAux _ false c h1 with rfl | ⟨hm, _⟩
  · decide
  · obtain ⟨x, _, rfl⟩ := List.mem_map.mp hm
    exact toLower_toLower x

theorem norm_ws_only_space (s : List Char) (c : Char) (hc : c ∈ normalizeTitle s)
    (hw : isWs c = true) : c = ' ' := by
  unfold normalizeTitle at hc
  have h1 := mem_trimWs _ c hc
  rcases mem_collapseWsAux _ false c h1 with rfl | ⟨_, hws⟩
  · rfl
  · rw [hws] at hw; cases hw

theorem norm_chain (s : List Char) :
    List.Chain' (fun a b : Char => ¬(a = ' ' ∧ b = ' ')) (normalizeTitle s) := by
  unfold normalizeTitle trimWs
  have h0 := (chain_collapseWsAux (s.map Char.toLower)).1
  have h1 := h0.suffix (List.dropWhile_suffix isWs)
  have h2 : List.Chain' (fun a b : Char => ¬(a = ' ' ∧ b = ' '))
      ((collapseWs (s.map Char.toLower)).dropWhile isWs).reverse := by
    rw [List.chain'_reverse]
    exact h1.imp fun a b h => fun ⟨ha, hb⟩ => h ⟨hb, ha⟩
  have h3 := h2.suffix (List.dropWhile_suffix isWs)
  rw [List.chain'_reverse]
  exact h3.imp fun a b h => fun ⟨ha, hb⟩ => h ⟨hb, ha⟩

theorem normalize_fixed (s : List Char) :
    normalizeTitle (normalizeTitle s) = normalizeTitle s := by
  have hmap : (normalizeTitle s).map Char.toLower = normalizeTitle s := by
    rw [List.map_congr_left (fun c hc => norm_chars s c hc)]
    exact List.map_id _
  have hcol : collapseWs (normalizeTitle s) = normalizeTitle s :=
    (collapse_eq_self (normalizeTitle s)
      (fun c hc hw => norm_ws_only_space s c hc hw) (norm_chain s)).1
  have htrim : trimWs (normalizeTitle s) = normalizeTitle s :=
    trim_eq_self _ (fun c hc => trim_head_not_ws _ c hc)
      (fun c hc => trim_last_not_ws _ c hc)
  show trimWs (collapseWs ((normalizeTitle s).map Char.toLower)) = normalizeTitle s
  rw [hmap, hcol, htrim]

/-! ## Selector lemmas -/

theorem scoredWalk_checked_length (ex : Nat → Bool) (l : List (Nat × Nat)) :
    ((scoredWalk ex l).2).length ≤ l.length := by
  induction l with
  | nil => simp [scoredWalk]
  | cons e rest ih =>
    obtain ⟨i, sc⟩ := e
    by_cases h : 0 < sc
    · by_cases hex : ex i = true
      · simp [scoredWalk, h, hex]
      · simp only [scoredWalk, if_pos h, hex, Bool.false_eq_true, if_false,
          List.length_cons]
        exact Nat.succ_le_succ ih
    · simp only [scoredWalk, if_neg h, List.length_cons]
      exact Nat.le_succ_of_le ih

theorem scoredWalk_checked_mem (ex : Nat → Bool) (l : List (Nat × Nat)) (i : Nat)
    (hi : i ∈ (scoredWalk ex l).2) : ∃ sc, (i, sc) ∈ l ∧ 0 < sc := by
  induction l with
  | nil => simp [scoredWalk] at hi
  | cons e rest ih =>
    obtain ⟨j, sc⟩ := e
    by_cases h : 0 < sc
    · by_cases hex : ex j = true
      · simp only [scoredWalk, if_pos h, hex, if_true, List.mem_singleton] at hi
        subst hi
        exact ⟨sc, by simp, h⟩
      · simp only [scoredWalk, if_pos h, hex, Bool.false_eq_true, if_false,
          List.mem_cons] at hi
        rcases hi with rfl | hi
        · exact ⟨sc, by simp, h⟩
        · obtain ⟨sc', hm, hp⟩ := ih hi
          exact ⟨sc', by simp [hm], hp⟩
    · simp only [scoredWalk, if_neg h] at hi
      obtain ⟨sc', hm, hp⟩ := ih hi
      exact ⟨sc', by simp [hm], hp⟩

/-! ## Claim theorems: scorer, selector, normalizer -/

/-- C7: the title normalizer lowercases, collapses every whitespace run to a
single space and trims the ends; it is a pure total function, it is
idempotent (`normalize(normalize(x)) == normalize(x)` for every string), and
`normalize("  Foo   Bar ") == "foo bar"`. -/
theorem C7_normalize_idempotent :
    (∀ x : List Char, normalizeTitle (normalizeTitle x) = normalizeTitle x) ∧
    normalizeTitle "  Foo   Bar ".data = "foo bar".data :=
  ⟨normalize_fixed, by decide⟩

/-- C3 counterexample: the claim says the scorer returns 0 for reference
`"Hello"` and candidate `"Hello World"`; it does not.  The remainder
`"world"` is 5 characters long, so the `after.length <= 8` fallback of
`hasStrictBoundary` (line 296) accepts the boundary, and the claim's premise
that the remainder "exceeds 8 characters" is simply false. -/
theorem C3_counterexample :
    scoreTitleMatch (normalizeTitle "Hello".data) "Hello World".data ≠ 0 := by decide

/-- C3 as amended: for reference `"Hello"` and candidate `"Hello World"` the
scorer returns 700 (prefix-plus-space match), because the strict-boundary
check passes: the remainder `" World"` trims/strips to `"world"`, which is
not a recognized qualifier but is at most 8 characters long, and no reject
keyword occurs. -/
theorem C3_hello_world_scores_700 :
    scoreTitleMatch (normalizeTitle "Hello".data) "Hello World".data = 700 ∧
    hasStrictBoundary (normalizeTitle "Hello World".data)
      (normalizeTitle "Hello".data) = true := by decide

/-- C6: with candidates `[{id:1,title:"Song (Live)"},{id:2,title:"Song
(Official Video)"}]`, reference title `"Song"`, and an existence check that
passes for every id, the selector returns id 2; `"Song (Official Video)"`
scores 900 while `"Song (Live)"` is hard-rejected with score 0 (the
bracketed content `"live"` is not an allowed qualifier). -/
theorem C6_selector_end_to_end :
    findBestMatchingId [⟨1, "Song (Live)".data⟩, ⟨2, "Song (Official Video)".data⟩]
      (fun _ => true) (some "Song".data) = some 2 ∧
    scoreTitleMatch (normalizeTitle "Song".data) "Song (Official Video)".data = 900 ∧
    scoreTitleMatch (normalizeTitle "Song".data) "Song (Live)".data = 0 := by decide

/-- C9: when a reference title is supplied, the selector checks existence of
at most the 3 highest-scoring candidates, and only candidates with positive
score; concretely, with four candidates all scoring 700 (stable order
preserved) and an existence check accepting only id 4, the full list yields
`undefined` even though candidate 4 alone (positively scored, playable)
would be returned. -/
theorem C9_top3_existence_checks :
    (∀ (items : List Candidate) (ex : Nat → Bool) (t : List Char),
      (checkedExistence items ex t).length ≤ 3 ∧
      ∀ i ∈ checkedExistence items ex t,
        ∃ sc, (i, sc) ∈ (sortByScoreDesc
            (items.map (fun it => (it.id, scoreTitleMatch t it.title)))).take 3 ∧
          0 < sc) ∧
    findBestMatchingId
      [⟨1, "Song a".data⟩, ⟨2, "Song b".data⟩, ⟨3, "Song c".data⟩, ⟨4, "Song d".data⟩]
      (fun i => i == 4) (some "Song".data) = none ∧
    findBestMatchingId [⟨4, "Song d".data⟩]
      (fun i => i == 4) (some "Song".data) = some 4 := by
  refine ⟨fun items ex t => ⟨?_, ?_⟩, by decide, by decide⟩
  · calc (checkedExistence items ex t).length
        ≤ ((sortByScoreDesc
            (items.map (fun it => (it.id, scoreTitleMatch t it.title)))).take 3).length :=
          scoredWalk_checked_length ex _
      _ ≤ 3 := by simp
  · intro i hi
    exact scoredWalk_checked_mem ex _ i hi

/-! ## Resolver lemmas and claim theorems -/

theorem contains_eq_false_of_not_mem {K : Type} [BEq K] [LawfulBEq K]
    (l : List K) (k : K) (h : k ∉ l) : l.contains k = false := by
  cases hc : l.contains k
  · rfl
  · exact absurd (List.elem_iff.mp hc) h

theorem beq_false_of_not_mem {K : Type} [BEq K] [LawfulBEq K]
    (l : List K) (k : K) (h : k ∉ l) : ∀ e ∈ l, (e == k) = false := by
  intro e he
  by_cases hb : (e == k) = true
  · exact absurd (eq_of_beq hb ▸ he) h
  · simpa using hb

theorem mem_pruneSet_append (l : List (List Char)) (k : List Char) :
    k ∈ pruneSet (l ++ [k]) := by
  unfold pruneSet
  split
  · next hlen =>
    apply mem_drop_append_last
    simp only [List.length_append, List.length_singleton] at hlen ⊢
    omega
  · simp

/-- C1: single-flight deduplication.  From a state where the key
`k = artist.lower() + " - " + title.lower()` is neither negative-cached nor
in flight: the first `resolve` starts search number `nextSearchId` (exactly
one underlying search is issued across both calls — the counter advances by
exactly one), the second `resolve` made before the search settles joins that
same promise id, so both callers necessarily receive the same settled value
in the success and in the failure case; whatever the outcome, settling
removes the in-flight entry, restoring the registry to exactly what it was
before; and the registry keeps at most one entry per key (key-list
`Nodup`ness is preserved). -/
theorem C1_single_flight (title artist : List Char) (s : ResolverState)
    (hfresh : searchKey title artist ∉ s.failedSearches)
    (hidle : s.ongoingSearches.lookup (searchKey title artist) = none) :
    (findSongVideoPair title artist s).1 = ResolveResult.started s.nextSearchId ∧
    (findSongVideoPair title artist (findSongVideoPair title artist s).2).1 =
      ResolveResult.joined s.nextSearchId ∧
    (findSongVideoPair title artist (findSongVideoPair title artist s).2).2.nextSearchId =
      s.nextSearchId + 1 ∧
    (∀ resp exT exV,
      (settleSearch title (searchKey title artist) resp exT exV
        (findSongVideoPair title artist
          (findSongVideoPair title artist s).2).2).2.ongoingSearches =
      s.ongoingSearches) ∧
    ((s.ongoingSearches.map Prod.fst).Nodup →
      ((findSongVideoPair title artist
        (findSongVideoPair title artist s).2).2.ongoingSearches.map Prod.fst).Nodup) := by
  have hc : s.failedSearches.contains (searchKey title artist) = false :=
    contains_eq_false_of_not_mem _ _ hfresh
  have hfr := fresh_of_lookup_eq_none s.ongoingSearches (searchKey title artist) hidle
  have h1 : findSongVideoPair title artist s =
      (.started s.nextSearchId,
        { s with
            ongoingSearches :=
              mapSet s.ongoingSearches (searchKey title artist) s.nextSearchId,
            nextSearchId := s.nextSearchId + 1 }) := by
    simp [findSongVideoPair, hc, hidle, hfresh]
  have h2 := lookup_mapSet s.ongoingSearches (searchKey title artist) s.nextSearchId
  have h3 : findSongVideoPair title artist (findSongVideoPair title artist s).2 =
      (.joined s.nextSearchId, (findSongVideoPair title artist s).2) := by
    rw [h1]
    simp [findSongVideoPair, hc, h2, hfresh]
  refine ⟨by rw [h1], by rw [h3, h1], by rw [h3, h1], ?_, ?_⟩
  · intro resp exT exV
    have hongoing :
        (performSearch title (searchKey title artist) resp exT exV
          (findSongVideoPair title artist
            (findSongVideoPair title artist s).2).2).2.ongoingSearches =
        mapSet s.ongoingSearches (searchKey title artist) s.nextSearchId := by
      rw [h3, h1]
      cases resp with
      | httpError => simp [performSearch]
      | payload ti vi =>
        simp only [performSearch]
        split <;> simp
      | exn => simp [performSearch]
    show (settleSearch title (searchKey title artist) resp exT exV _).2.ongoingSearches = _
    unfold settleSearch
    simp only [hongoing]
    exact eraseKey_mapSet_of_fresh _ _ _ hfr
  · intro hnodup
    rw [h3, h1]
    simp only
    rw [mapSet_of_fresh _ _ _ hfr, List.map_append]
    simp only [List.map_cons, List.map_nil]
    rw [List.nodup_append]
    refine ⟨hnodup, by simp, ?_⟩
    intro a ha hb
    simp only [List.mem_singleton] at hb
    subst hb
    obtain ⟨e, he, he1⟩ := List.mem_map.mp ha
    have := hfr e he
    rw [he1] at this
    simp at this

/-- C1 witness: the single-flight theorem instantiated at the empty initial
state with title `"t"`, artist `"a"`, settling with an HTTP error. -/
theorem C1_witness :
    (findSongVideoPair "t".data "a".data initialState).1 = ResolveResult.started 0 ∧
    (findSongVideoPair "t".data "a".data
      (findSongVideoPair "t".data "a".data initialState).2).1 = ResolveResult.joined 0 ∧
    (settleSearch "t".data (searchKey "t".data "a".data) .httpError
      (fun _ => false) (fun _ => false)
      (findSongVideoPair "t".data "a".data
        (findSongVideoPair "t".data "a".data initialState).2).2).2.ongoingSearches = [] := by
  have h := C1_single_flight "t".data "a".data initialState
    (by decide) (by decide)
  exact ⟨h.1, h.2.1, h.2.2.2.1 .httpError (fun _ => false) (fun _ => false)⟩

/-- C8 counterexample: a media item whose id is already in the pairing cache
resolves to the cached pairing even when its title is empty, so "resolution
returns undefined for empty titles" is not universally true: the cache check
(line 140) runs before the title check (line 147). -/
theorem C8_counterexample :
    (resolveMapping 42 (.ok (some [], "x".data))
        (⟨[(42, ⟨42, 7⟩)], [], [], [], 0⟩ : ResolverState)).1 =
      MappingOutcome.pairCached ⟨42, 7⟩ ∧
    (resolveMapping 42 (.ok (some [], "x".data))
        (⟨[(42, ⟨42, 7⟩)], [], [], [], 0⟩ : ResolverState)).1 ≠
      MappingOutcome.noResult := by decide

/-- C8 as amended: when the media item's title is empty AND its id has no
entry in the pairing cache, `resolveMapping` short-circuits before any
network call, returns `undefined`, and leaves the entire state (all caches
and the in-flight registry) unchanged. -/
theorem C8_empty_title_short_circuit (mediaId : Nat) (artist : List Char)
    (s : ResolverState) (h : s.songToVideoMappings.lookup mediaId = none) :
    resolveMapping mediaId (.ok (some [], artist)) s = (.noResult, s) := by
  simp [resolveMapping, h]

/-- C8 witness: the amended theorem at the initial state. -/
theorem C8_witness :
    resolveMapping 1 (.ok (some [], "a".data)) initialState =
      (.noResult, initialState) :=
  C8_empty_title_short_circuit 1 "a".data initialState rfl

/-- C10: `clearCaches` empties exactly the pairing cache, the negative cache
and the in-flight registry, and leaves the seek-intent map untouched; a
pending seek intent recorded before the clear is still consumed afterwards. -/
theorem C10_clear_preserves_seek (s : ResolverState) (id v : Nat) :
    (clearCaches s).songToVideoMappings = [] ∧
    (clearCaches s).failedSearches = [] ∧
    (clearCaches s).ongoingSearches = [] ∧
    (clearCaches s).seekPositions = s.seekPositions ∧
    (consumeSeek id (clearCaches (setSeekIntent id (some v) s))).1 = some v := by
  refine ⟨rfl, rfl, rfl, rfl, ?_⟩
  simp [consumeSeek, clearCaches, setSeekIntent, lookup_mapSet]

/-- C2 as amended: (i) while the key `K` is in the negative cache, every
`resolve` for `K` returns `undefined` immediately, with no new search issued
and no state change at all; (ii) a settling search whose outcome is a
failure (HTTP error, no plausible candidate, or exception — i.e. the settled
value is `undefined`) writes `K` to the negative cache; (iii) `clearCaches`
empties the negative cache.  This holds only WHILE `K` stays cached: unlike
the claim's "until clearAll is invoked", `K` can also be evicted earlier by
the prune in `pruneSet` (see the counterexample). -/
theorem C2_negative_cache (title artist : List Char) (s : ResolverState) :
    (searchKey title artist ∈ s.failedSearches →
      findSongVideoPair title artist s = (.negCached, s)) ∧
    (∀ resp exT exV, searchKey title artist ∉ s.failedSearches →
      (settleSearch title (searchKey title artist) resp exT exV s).1 = none →
      searchKey title artist ∈
        (settleSearch title (searchKey title artist) resp exT exV s).2.failedSearches) ∧
    (clearCaches s).failedSearches = [] := by
  refine ⟨?_, ?_, rfl⟩
  · intro hmem
    have hc : s.failedSearches.contains (searchKey title artist) = true :=
      List.elem_iff.mpr hmem
    simp [findSongVideoPair, hc, hmem]
  · intro resp exT exV hfresh hfail
    have hadd : setAdd s.failedSearches (searchKey title artist) =
        s.failedSearches ++ [searchKey title artist] :=
      setAdd_of_fresh _ _ (beq_false_of_not_mem _ _ hfresh)
    cases resp with
    | httpError =>
      show searchKey title artist ∈
        (performSearch title (searchKey title artist) .httpError exT exV s).2.failedSearches
      simp [performSearch, hadd]
    | exn =>
      show searchKey title artist ∈
        (performSearch title (searchKey title artist) .exn exT exV s).2.failedSearches
      simp only [performSearch, hadd]
      exact mem_pruneSet_append _ _
    | payload ti vi =>
      have hfail' : (performSearch title (searchKey title artist)
          (.payload ti vi) exT exV s).1 = none := hfail
      show searchKey title artist ∈
        (performSearch title (searchKey title artist) (.payload ti vi) exT exV s).2.failedSearches
      simp only [performSearch] at hfail' ⊢
      split at hfail'
      · cases hfail'
      · next hcond =>
        rw [if_neg hcond]
        simp only [hadd]
        exact mem_pruneSet_append _ _

/-- C2 witness: with `K = "y - x"` already negative-cached, `resolve("x","y")`
returns `undefined` and changes nothing; from a fresh state, a settling
search for `K` that finds no plausible candidates writes `K` to the negative
cache; and `clearCaches` empties it. -/
theorem C2_witness :
    findSongVideoPair "x".data "y".data
      (⟨[], [searchKey "x".data "y".data], [], [], 0⟩ : ResolverState) =
      (.negCached, (⟨[], [searchKey "x".data "y".data], [], [], 0⟩ : ResolverState)) ∧
    searchKey "x".data "y".data ∈
      (settleSearch "x".data (searchKey "x".data "y".data) (.payload [] [])
        (fun _ => false) (fun _ => false) initialState).2.failedSearches ∧
    (clearCaches (⟨[], [searchKey "x".data "y".data], [], [], 0⟩ :
      ResolverState)).failedSearches = [] := by
  refine ⟨(C2_negative_cache "x".data "y".data _).1 (by decide),
    (C2_negative_cache "x".data "y".data initialState).2.1 (.payload [] [])
      (fun _ => false) (fun _ => false) (by decide) (by decide),
    (C2_negative_cache "x".data "y".data _).2.2⟩

/-! ## Scenario runs: negative-cache growth and eviction -/

theorem keyChar_toNat (d : Nat) (h : d < 36) :
    (keyChar d).toNat = if d < 10 then 48 + d else 87 + d := by
  unfold keyChar
  by_cases h10 : d < 10
  · rw [if_pos h10, if_pos h10, charOfNat_toNat _ (Or.inl (by omega))]
  · rw [if_neg h10, if_neg h10, charOfNat_toNat _ (Or.inl (by omega))]

theorem keyChar_fix (d : Nat) (h : d < 36) :
    Char.toLower (keyChar d) = keyChar d := by
  apply toLower_of_not_upper
  rw [keyChar_toNat d h]
  split <;> omega

theorem keyChar_inj (d e : Nat) (hd : d < 36) (he : e < 36)
    (h : keyChar d = keyChar e) : d = e := by
  have ht := congrArg Char.toNat h
  rw [keyChar_toNat d hd, keyChar_toNat e he] at ht
  split at ht <;> split at ht <;> omega

theorem otherKey_eq (i : Nat) (h : i < 1296) :
    otherKey i = keyChar (i / 36) :: keyChar (i % 36) :: " - ".data := by
  unfold otherKey otherArtist searchKey
  simp only [List.map_cons, List.map_nil]
  rw [keyChar_fix _ (by omega), keyChar_fix _ (by omega)]
  rfl

theorem negKey_eq : negKey = "zzz - ".data := by decide

theorem otherKey_inj (i j : Nat) (hi : i < 1296) (hj : j < 1296)
    (h : otherKey i = otherKey j) : i = j := by
  rw [otherKey_eq i hi, otherKey_eq j hj] at h
  have h1 : keyChar (i / 36) = keyChar (j / 36) := (List.cons.injEq _ _ _ _ ▸ h).1
  have htail : keyChar (i % 36) :: " - ".data = keyChar (j % 36) :: " - ".data :=
    (List.cons.injEq _ _ _ _ ▸ h).2
  have h2 : keyChar (i % 36) = keyChar (j % 36) := (List.cons.injEq _ _ _ _ ▸ htail).1
  have e1 := keyChar_inj _ _ (by omega) (by omega) h1
  have e2 := keyChar_inj _ _ (by omega) (by omega) h2
  omega

theorem negKey_ne_otherKey (i : Nat) (hi : i < 1296) : negKey ≠ otherKey i := by
  intro h
  have hlen := congrArg List.length h
  rw [negKey_eq, otherKey_eq i hi] at hlen
  simp only [List.length_cons, List.length_nil] at hlen
  omega

theorem otherKey_not_mem_map (m bound : Nat) (hm : m < 1296) (hb : bound ≤ m) :
    otherKey m ∉ (List.range bound).map otherKey := by
  intro hmem
  obtain ⟨j, hj, hje⟩ := List.mem_map.mp hmem
  rw [List.mem_range] at hj
  have := otherKey_inj j m (by omega) hm hje
  omega

theorem resolveAndFail_httpError (title artist : List Char) (s : ResolverState)
    (hfresh : searchKey title artist ∉ s.failedSearches)
    (hong : s.ongoingSearches = []) :
    resolveAndFail title artist .httpError s =
      ⟨s.songToVideoMappings, setAdd s.failedSearches (searchKey title artist),
        [], s.seekPositions, s.nextSearchId + 1⟩ := by
  have hc := contains_eq_false_of_not_mem _ _ hfresh
  have h1 : (findSongVideoPair title artist s).2 =
      { s with
          ongoingSearches := [(searchKey title artist, s.nextSearchId)],
          nextSearchId := s.nextSearchId + 1 } := by
    simp [findSongVideoPair, hc, hfresh, hong, mapSet]
  unfold resolveAndFail
  rw [h1]
  simp [settleSearch, performSearch, eraseKey]

theorem resolveAndFail_noPair (title artist : List Char) (s : ResolverState)
    (hfresh : searchKey title artist ∉ s.failedSearches)
    (hong : s.ongoingSearches = []) :
    resolveAndFail title artist (.payload [] []) s =
      ⟨s.songToVideoMappings,
        pruneSet (setAdd s.failedSearches (searchKey title artist)),
        [], s.seekPositions, s.nextSearchId + 1⟩ := by
  have hc := contains_eq_false_of_not_mem _ _ hfresh
  have h1 : (findSongVideoPair title artist s).2 =
      { s with
          ongoingSearches := [(searchKey title artist, s.nextSearchId)],
          nextSearchId := s.nextSearchId + 1 } := by
    simp [findSongVideoPair, hc, hfresh, hong, mapSet]
  unfold resolveAndFail
  rw [h1]
  simp [settleSearch, performSearch, findBestMatchingId, truthy, eraseKey]

theorem httpFailState_spec (n : Nat) (hn : n ≤ 1002) :
    httpFailState n = ⟨[], (List.range n).map otherKey, [], [], n⟩ := by
  induction n with
  | zero => rfl
  | succ m ih =>
    have hm := ih (by omega)
    have hfresh : otherKey m ∉ (List.range m).map otherKey :=
      otherKey_not_mem_map m m (by omega) (le_refl m)
    show resolveAndFail [] (otherArtist m) .httpError (httpFailState m) = _
    rw [hm, resolveAndFail_httpError [] (otherArtist m) _ hfresh rfl]
    have hadd : setAdd ((List.range m).map otherKey) (otherKey m) =
        (List.range m).map otherKey ++ [otherKey m] :=
      setAdd_of_fresh _ _ (beq_false_of_not_mem _ _ hfresh)
    have : (List.range m).map otherKey ++ [otherKey m] =
        (List.range (m + 1)).map otherKey := by
      rw [List.range_succ, List.map_append, List.map_singleton]
    show (⟨[], setAdd ((List.range m).map otherKey) (otherKey m), [], [], m + 1⟩ :
      ResolverState) = _
    rw [hadd, this]

/-- C5 evaluation at the failing input: 1002 searches with pairwise distinct
keys (artist = the two ASCII base-36 digits of `i`, title empty; such keys
are pairwise distinct under real JS `toLowerCase` too, which fixes ASCII
digits and lowercase letters) each settle with a non-ok HTTP response; that
branch of `performSearch`
(lines 110-113) adds to `failedSearches` without calling `pruneSet`, so the
negative cache ends at 1002 entries, beyond the 1000-entry high-water mark
the claim says can never be exceeded without an immediate prune to 500. -/
theorem C5_transport_unpruned :
    (httpFailState 1002).failedSearches.length = 1002 ∧
    1000 < (httpFailState 1002).failedSearches.length := by
  rw [httpFailState_spec 1002 (le_refl _)]
  simp

theorem evictState_spec (n : Nat) (hn : n ≤ 999) :
    evictState n = ⟨[], negKey :: (List.range n).map otherKey, [], [], n + 1⟩ := by
  induction n with
  | zero =>
    show resolveAndFail [] negArtist (.payload [] []) initialState = _
    rw [resolveAndFail_noPair [] negArtist initialState (by simp [initialState]) rfl]
    simp [initialState, setAdd, pruneSet]
    rfl
  | succ m ih =>
    have hm := ih (by omega)
    have hfresh : otherKey m ∉ negKey :: (List.range m).map otherKey := by
      intro hmem
      rcases List.mem_cons.mp hmem with h | h
      · exact negKey_ne_otherKey m (by omega) h.symm
      · exact otherKey_not_mem_map m m (by omega) (le_refl m) h
    show resolveAndFail [] (otherArtist m) (.payload [] []) (evictState m) = _
    rw [hm, resolveAndFail_noPair [] (otherArtist m) _ hfresh rfl]
    have hadd : setAdd (negKey :: (List.range m).map otherKey) (otherKey m) =
        (negKey :: (List.range m).map otherKey) ++ [otherKey m] :=
      setAdd_of_fresh _ _ (beq_false_of_not_mem _ _ hfresh)
    have hlist : (negKey :: (List.range m).map otherKey) ++ [otherKey m] =
        negKey :: (List.range (m + 1)).map otherKey := by
      rw [List.range_succ, List.map_append, List.map_singleton]
      rfl
    have hnoprune : pruneSet (negKey :: (List.range (m + 1)).map otherKey) =
        negKey :: (List.range (m + 1)).map otherKey := by
      unfold pruneSet
      rw [if_neg]
      simp only [List.length_cons, List.length_map, List.length_range]
      omega
    show (⟨[], pruneSet (setAdd (negKey :: (List.range m).map otherKey) (otherKey m)),
      [], [], m + 1 + 1⟩ : ResolverState) = _
    rw [hadd, hlist, hnoprune]

theorem evictState_final :
    evictState 1000 =
      ⟨[], ((List.range 1000).map otherKey).drop 500, [], [], 1001⟩ := by
  have hm := evictState_spec 999 (le_refl _)
  have hfresh : otherKey 999 ∉ negKey :: (List.range 999).map otherKey := by
    intro hmem
    rcases List.mem_cons.mp hmem with h | h
    · exact negKey_ne_otherKey 999 (by omega) h.symm
    · exact otherKey_not_mem_map 999 999 (by omega) (le_refl _) h
  show resolveAndFail [] (otherArtist 999) (.payload [] []) (evictState 999) = _
  rw [hm, resolveAndFail_noPair [] (otherArtist 999) _ hfresh rfl]
  have hadd : setAdd (negKey :: (List.range 999).map otherKey) (otherKey 999) =
      (negKey :: (List.range 999).map otherKey) ++ [otherKey 999] :=
    setAdd_of_fresh _ _ (beq_false_of_not_mem _ _ hfresh)
  have hlist : (negKey :: (List.range 999).map otherKey) ++ [otherKey 999] =
      negKey :: (List.range 1000).map otherKey := by
    rw [List.range_succ, List.map_append, List.map_singleton]
    rfl
  have hprune : pruneSet (negKey :: (List.range 1000).map otherKey) =
      ((List.range 1000).map otherKey).drop 500 := by
    unfold pruneSet
    rw [if_pos]
    · have hlen : (negKey :: (List.range 1000).map otherKey).length = 1001 := by
        simp
      rw [hlen]
      show (negKey :: (List.range 1000).map otherKey).drop (500 + 1) = _
      rw [List.drop_succ_cons]
    · simp
  show (⟨[], pruneSet (setAdd (negKey :: (List.range 999).map otherKey) (otherKey 999)),
    [], [], 1001⟩ : ResolverState) = _
  rw [hadd, hlist, hprune]

/-- C2 counterexample: the resolution of key `K = "zzz - "` fails (writing
`K` to the negative cache: first conjunct); then 1000 other keys fail (all
built from ASCII digits and lowercase letters, so they are pairwise distinct
under real JS `toLowerCase` just as in the model), and the prune
performed when the negative cache exceeds 1000 entries evicts `K` (second
conjunct) although `clearCaches` was never invoked (the run consists solely
of resolve/settle steps); a subsequent `resolve` for `K` then issues a brand
new underlying search (number 1001) instead of returning `undefined`
immediately, contradicting the claim that this behaviour persists until
`clearAll`/`clearCaches` is invoked. -/
theorem C2_counterexample :
    negKey ∈ (evictState 0).failedSearches ∧
    negKey ∉ (evictState 1000).failedSearches ∧
    (findSongVideoPair [] negArtist (evictState 1000)).1 =
      ResolveResult.started 1001 := by
  have h0 := evictState_spec 0 (by omega)
  have hf := evictState_final
  have hnotin : negKey ∉ ((List.range 1000).map otherKey).drop 500 := by
    intro hmem
    have hsub := List.drop_subset 500 ((List.range 1000).map otherKey)
    obtain ⟨j, hj, hje⟩ := List.mem_map.mp (hsub hmem)
    rw [List.mem_range] at hj
    exact negKey_ne_otherKey j (by omega) hje.symm
  refine ⟨by rw [h0]; simp, by rw [hf]; exact hnotin, ?_⟩
  rw [hf]
  have hc : (((List.range 1000).map otherKey).drop 500).contains negKey = false :=
    contains_eq_false_of_not_mem _ _ hnotin
  have hne : searchKey [] negArtist ∉
      ((List.range 1000).map otherKey).drop 500 := hnotin
  have hc' : (((List.range 1000).map otherKey).drop 500).contains
      (searchKey [] negArtist) = false := hc
  simp [findSongVideoPair, hc', hne]

/-! ## Scenario run: bounded growth of the pairing cache -/

theorem pairEntries_cons (p : Pairing) (l : List Pairing) :
    pairEntries (p :: l) = (p.trackId, p) :: (p.videoId, p) :: pairEntries l := by
  simp [pairEntries]

theorem pairEntries_append_singleton (l : List Pairing) (p : Pairing) :
    pairEntries (l ++ [p]) = pairEntries l ++ [(p.trackId, p), (p.videoId, p)] := by
  simp [pairEntries]

theorem pairEntries_length (l : List Pairing) :
    (pairEntries l).length = 2 * l.length := by
  induction l with
  | nil => rfl
  | cons p rest ih =>
    rw [pairEntries_cons]
    simp only [List.length_cons, ih]
    omega

theorem pairEntries_drop (j : Nat) (l : List Pairing) :
    (pairEntries l).drop (2 * j) = pairEntries (l.drop j) := by
  induction j generalizing l with
  | zero => simp
  | succ j ih =>
    cases l with
    | nil => simp [pairEntries]
    | cons p rest =>
      rw [pairEntries_cons, List.drop_succ_cons,
        show 2 * (j + 1) = 2 * j + 1 + 1 from by omega,
        List.drop_succ_cons, List.drop_succ_cons]
      exact ih rest

theorem pairKeys (s n : Nat) :
    (pairEntries ((List.range' s n).map demoPair)).map Prod.fst =
      List.range' (2 * s + 1) (2 * n) := by
  induction n generalizing s with
  | zero => rfl
  | succ n ih =>
    rw [List.range'_succ, List.map_cons, pairEntries_cons]
    simp only [List.map_cons]
    rw [ih (s + 1)]
    rw [show 2 * (n + 1) = 2 * n + 1 + 1 from by omega,
      List.range'_succ, List.range'_succ]
    show (demoPair s).trackId :: (demoPair s).videoId :: _ = _
    simp only [demoPair]
    congr 2

theorem cachePairCount_le (n : Nat) : cachePairCount n ≤ n := by
  induction n with
  | zero => exact le_refl 0
  | succ n ih =>
    show (if 2 * (cachePairCount n + 1) > 1000 then 250 else cachePairCount n + 1) ≤ n + 1
    split
    · next h => omega
    · omega

theorem cachePairCount_add (b k : Nat) (h : cachePairCount b + k ≤ 500) :
    cachePairCount (b + k) = cachePairCount b + k := by
  induction k with
  | zero => rfl
  | succ k ih =>
    have hk := ih (by omega)
    show cachePairCount ((b + k) + 1) = _
    simp only [cachePairCount]
    rw [hk, if_neg (by omega)]
    omega

theorem cc500 : cachePairCount 500 = 500 := by
  have h := cachePairCount_add 0 500
    (by have h0 : cachePairCount 0 = 0 := rfl; omega)
  have h0 : cachePairCount 0 = 0 := rfl
  rw [h0] at h
  exact h

theorem cachePairCount_succ (n : Nat) :
    cachePairCount (n + 1) =
      if 2 * (cachePairCount n + 1) > 1000 then 250 else cachePairCount n + 1 := rfl

theorem cc501 : cachePairCount 501 = 250 := by
  rw [show (501 : Nat) = 500 + 1 from by norm_num, cachePairCount_succ, cc500]
  norm_num

theorem cc751 : cachePairCount 751 = 500 := by
  have h := cachePairCount_add 501 250 (by have := cc501; omega)
  rw [cc501] at h
  exact h

theorem cc752 : cachePairCount 752 = 250 := by
  rw [show (752 : Nat) = 751 + 1 from by norm_num, cachePairCount_succ, cc751]
  norm_num

theorem cc1001 : cachePairCount 1001 = 499 := by
  have h := cachePairCount_add 752 249 (by have := cc752; omega)
  rw [cc752] at h
  exact h

theorem findBest_singleton_unscored (k : Nat) :
    findBestMatchingId [⟨k, []⟩] (fun _ => true) (some []) = some k := by
  simp [findBestMatchingId, List.find?]

theorem insertStep_spec (s : ResolverState) (i : Nat)
    (hong : s.ongoingSearches = [])
    (hfresh : ∀ e ∈ s.songToVideoMappings, e.1 < 2 * i + 1) :
    insertStep s i =
      { s with
          songToVideoMappings :=
            pruneCache (s.songToVideoMappings ++
              [(2 * i + 1, demoPair i), (2 * i + 2, demoPair i)]),
          ongoingSearches := [] } := by
  have h1 : mapSet s.songToVideoMappings (2 * i + 1)
      (⟨2 * i + 1, 2 * i + 2⟩ : Pairing) =
      s.songToVideoMappings ++ [(2 * i + 1, ⟨2 * i + 1, 2 * i + 2⟩)] :=
    mapSet_of_fresh _ _ _ (fun e he => beq_false_of_ne (by have := hfresh e he; omega))
  have h2 : mapSet (s.songToVideoMappings ++ [(2 * i + 1, ⟨2 * i + 1, 2 * i + 2⟩)])
      (2 * i + 2) (⟨2 * i + 1, 2 * i + 2⟩ : Pairing) =
      s.songToVideoMappings ++
        [(2 * i + 1, ⟨2 * i + 1, 2 * i + 2⟩), (2 * i + 2, ⟨2 * i + 1, 2 * i + 2⟩)] := by
    rw [mapSet_of_fresh _ _ _ ?_]
    · rw [List.append_assoc]
      rfl
    · intro e he
      rcases List.mem_append.mp he with hm | hm
      · exact beq_false_of_ne (by have := hfresh e hm; omega)
      · simp only [List.mem_singleton] at hm
        subst hm
        exact beq_false_of_ne (by omega)
  have hperf : performSearch [] [] (demoItems i) (fun _ => true) (fun _ => true) s =
      (some (demoPair i),
        { s with songToVideoMappings :=
            pruneCache (s.songToVideoMappings ++
              [(2 * i + 1, demoPair i), (2 * i + 2, demoPair i)]) }) := by
    simp only [performSearch, demoItems,
      findBest_singleton_unscored (2 * i + 1), findBest_singleton_unscored (2 * i + 2)]
    rw [if_pos (by simp [truthy])]
    simp only [Option.getD_some, demoPair]
    rw [h1, h2]
  unfold insertStep settleSearch
  simp only [hperf, hong, eraseKey]

theorem pairingsState_spec (n : Nat) (hn : n ≤ 1001) :
    pairingsState n =
      ⟨pairEntries ((List.range' (n - cachePairCount n) (cachePairCount n)).map demoPair),
        [], [], [], 0⟩ := by
  induction n with
  | zero => rfl
  | succ m ih =>
    have hm := ih (by omega)
    have hle := cachePairCount_le m
    have hfresh : ∀ e ∈ pairEntries
        ((List.range' (m - cachePairCount m) (cachePairCount m)).map demoPair),
        e.1 < 2 * m + 1 := by
      intro e he
      have hkey : e.1 ∈ (pairEntries
          ((List.range' (m - cachePairCount m) (cachePairCount m)).map demoPair)).map
          Prod.fst := List.mem_map_of_mem Prod.fst he
      rw [pairKeys] at hkey
      have := List.mem_range'_1.mp hkey
      omega
    show insertStep (pairingsState m) m = _
    rw [hm, insertStep_spec _ m rfl (by exact hfresh)]
    have hseg : pairEntries ((List.range' (m - cachePairCount m)
          (cachePairCount m)).map demoPair) ++
            [(2 * m + 1, demoPair m), (2 * m + 2, demoPair m)] =
        pairEntries ((List.range' (m - cachePairCount m)
          (cachePairCount m + 1)).map demoPair) := by
      have hconcat : List.range' (m - cachePairCount m) (cachePairCount m + 1) =
          List.range' (m - cachePairCount m) (cachePairCount m) ++ [m] := by
        have h := @List.range'_concat 1 (m - cachePairCount m) (cachePairCount m)
        rw [one_mul] at h
        rw [show m - cachePairCount m + cachePairCount m = m from by omega] at h
        exact h
      rw [hconcat, List.map_append, List.map_singleton, pairEntries_append_singleton]
      rfl
    have hlen : (pairEntries ((List.range' (m - cachePairCount m)
        (cachePairCount m + 1)).map demoPair)).length = 2 * (cachePairCount m + 1) := by
      rw [pairEntries_length, List.length_map, List.length_range']
    by_cases hbig : 2 * (cachePairCount m + 1) > 1000
    · have hcc : cachePairCount (m + 1) = 250 := by
        rw [cachePairCount_succ, if_pos hbig]
      have hprune : pruneCache (pairEntries ((List.range' (m - cachePairCount m)
          (cachePairCount m + 1)).map demoPair)) =
          pairEntries ((List.range' (m + 1 - 250) 250).map demoPair) := by
        unfold pruneCache
        rw [if_pos (by rw [hlen]; omega), hlen]
        rw [show 2 * (cachePairCount m + 1) - 500 =
          2 * (cachePairCount m + 1 - 250) from by omega]
        rw [pairEntries_drop, ← List.map_drop, range'_drop]
        rw [show m - cachePairCount m + (cachePairCount m + 1 - 250) =
          m + 1 - 250 from by omega]
        rw [show cachePairCount m + 1 - (cachePairCount m + 1 - 250) = 250 from by omega]
      rw [hseg]
      rw [hprune]
      rw [hcc]
    · have hcc : cachePairCount (m + 1) = cachePairCount m + 1 := by
        rw [cachePairCount_succ, if_neg hbig]
      have hnoprune : pruneCache (pairEntries ((List.range' (m - cachePairCount m)
          (cachePairCount m + 1)).map demoPair)) =
          pairEntries ((List.range' (m - cachePairCount m)
            (cachePairCount m + 1)).map demoPair) := by
        unfold pruneCache
        rw [if_neg (by rw [hlen]; omega)]
      rw [hseg]
      rw [hnoprune]
      rw [hcc]
      rw [show m + 1 - (cachePairCount m + 1) = m - cachePairCount m from by omega]

/-- C4 counterexample: inserting 1001 distinct pairings through the success
path of `performSearch` leaves the pairing cache with 998 entries — more
than the 500 the claim asserts.  Each pairing writes TWO map entries, so
1001 insertions produce 2002 writes; the prune (which keeps the last 500
entries whenever the count exceeds 1000) fires twice during the run and 998
entries accumulate afterwards. -/
theorem C4_counterexample :
    500 < (pairingsState 1001).songToVideoMappings.length := by
  have hs : (pairingsState 1001).songToVideoMappings =
      pairEntries ((List.range' (1001 - cachePairCount 1001)
        (cachePairCount 1001)).map demoPair) := by
    rw [pairingsState_spec 1001 (le_refl _)]
  rw [hs, cc1001, pairEntries_length, List.length_map, List.length_range']
  omega

/-- C4 as amended: after inserting 1001 distinct pairings (ids of pairing
`i` being `2i+1` and `2i+2`), the pairing cache holds exactly 998 entries:
the trackId and videoId keys of the most-recently-inserted 499 pairings, in
insertion order (keys `1005, 1006, ..., 2002`). -/
theorem C4_bounded_growth :
    (pairingsState 1001).songToVideoMappings.length = 998 ∧
    (pairingsState 1001).songToVideoMappings.map Prod.fst =
      List.range' 1005 998 := by
  have hs : (pairingsState 1001).songToVideoMappings =
      pairEntries ((List.range' (1001 - cachePairCount 1001)
        (cachePairCount 1001)).map demoPair) := by
    rw [pairingsState_spec 1001 (le_refl _)]
  rw [hs, cc1001, show (1001 : Nat) - 499 = 502 from by norm_num]
  constructor
  · rw [pairEntries_length, List.length_map, List.length_range']
  · rw [pairKeys]

/-- C9 witness: the bound on checked candidates, instantiated at a concrete
candidate list, oracle and reference title. -/
theorem C9_witness :
    (checkedExistence [⟨1, "Song a".data⟩] (fun _ => true) "Song".data).length ≤ 3 ∧
    (∀ i ∈ checkedExistence [⟨1, "Song a".data⟩] (fun _ => true) "Song".data,
      ∃ sc, (i, sc) ∈ (sortByScoreDesc
          ([Candidate.mk 1 "Song a".data].map
            (fun it => (it.id, scoreTitleMatch "Song".data it.title)))).take 3 ∧
        0 < sc) :=
  C9_top3_existence_checks.1 [⟨1, "Song a".data⟩] (fun _ => true) "Song".data
